import Mathlib

/-!
Shallow embedding of the Flight-Delay-Analysis ETL pipeline
(src/ETL_SCRIPT.py) and proofs about it.

Python machine integers are modelled as `Nat`/`Int` (the script only ever
builds non-negative keys and counters), Python strings as Lean `String` /
`List Char`, Python `None`/nullable values as `Option`, and the warehouse
tables (reached through pyodbc) as explicit in-memory lists inside a
`Warehouse` state record.  The `\d` class of the `re` module is modelled as
an ASCII digit, and `str.strip` / `str.lower` on the ASCII range, which
covers every value the pipeline compares against.
-/

namespace FlightETL

/-! ## Decimal rendering and parsing (Python `str`, `int`, format specs)

`transform_data` builds `date_key` by string formatting and reparsing:
`int(f"...")` over `year`, zero-padded `month` and `day`.  We model decimal
rendering of a natural number as its digit-character list (most significant
first) and `int(...)` as the usual left fold over the characters. -/

/-- Digits of `n`, least significant first, with explicit structural fuel
(`fuel ≥ n` suffices).  Mirrors repeated `divmod 10` of decimal rendering. -/
def digitsRevAux : Nat → Nat → List Nat
  | 0, n => [n % 10]
  | fuel + 1, n => if n < 10 then [n] else n % 10 :: digitsRevAux fuel (n / 10)

/-- Decimal digits of `n`, least significant first. -/
def digitsRev (n : Nat) : List Nat := digitsRevAux n n

/-- The character list of Python `str(n)` for a natural number `n`. -/
def pyStrNatL (n : Nat) : List Char := ((digitsRev n).map Nat.digitChar).reverse

/-- Python zero-padding of `n` to width two (format spec `02d`). -/
def pyFormat02 (n : Nat) : List Char :=
  if n < 10 then '0' :: pyStrNatL n else pyStrNatL n

/-- Python zero-padding of `n` to width six (the `%f` field of `strftime`). -/
def pyFormat06 (n : Nat) : List Char :=
  List.replicate (6 - (pyStrNatL n).length) '0' ++ pyStrNatL n

/-- Python `int(...)` on a string of decimal digit characters. -/
def pyIntChars (l : List Char) : Nat :=
  l.foldl (fun a c => a * 10 + (c.toNat - 48)) 0

/-- The `date_key` computation of `transform_data`: decimal rendering of
`year`, two-digit-padded `month` and `day`, concatenated and reparsed. -/
def dateKey (y m d : Nat) : Nat :=
  pyIntChars (pyStrNatL y ++ pyFormat02 m ++ pyFormat02 d)

/-! ## Time Normalizer (lines 170-190 of `transform_data`)

The raw `DEPARTURE_TIME` value of a source row is either a structured
`datetime.time` value (hour, minute, second, microsecond, with the bounds
that class enforces), a free-text string, or `None` (also any other
non-time non-string value, which the script treats the same way). -/

/-- A raw departure-time value as it arrives from the source table. -/
inductive RawTime where
  | tod (h : Fin 24) (m : Fin 60) (s : Fin 60) (micro : Fin 1000000)
  | str (s : String)
  | null
deriving DecidableEq, Repr

/-- ASCII digit test, the model of the regex class `\d`. -/
def isDigitC (c : Char) : Bool := 48 ≤ c.toNat && c.toNat ≤ 57

/-- The whitespace set stripped by Python `str.strip()`. -/
def isSpaceC (c : Char) : Bool :=
  c == ' ' || c == '\t' || c == '\n' || c == '\r' || c == '\x0b' || c == '\x0c'

/-- Python `str.strip()`. -/
def pyStrip (s : String) : String :=
  String.mk (((s.data.dropWhile isSpaceC).reverse.dropWhile isSpaceC).reverse)

/-- Python `str.lower()` (ASCII case folding, all the script compares). -/
def pyLower (s : String) : String := String.mk (s.data.map Char.toLower)

/-- Fractional part of the time regex: one to seven digits, with `$` also
accepting a single trailing newline (a quirk of Python `$`). -/
def fracOk (l : List Char) : Bool :=
  let core := if l.getLast? == some '\n' then l.dropLast else l
  !core.isEmpty && core.length ≤ 7 && core.all isDigitC

/-- What may follow the `HH:MM:SS` part: end of string, a trailing newline
(accepted by `$`), or a dot followed by one to seven digits. -/
def matchTail : List Char → Bool
  | [] => true
  | ['\n'] => true
  | '.' :: frac => fracOk frac
  | _ => false

/-- Model of `re.match` of the raw pattern `HH:MM:SS` with an optional
fractional group of one to seven digits, anchored on both sides. -/
def matchesTimeRe : List Char → Bool
  | a :: b :: c1 :: d :: e :: c2 :: f :: g :: rest =>
    isDigitC a && isDigitC b && c1 == ':' && isDigitC d && isDigitC e &&
      c2 == ':' && isDigitC f && isDigitC g && matchTail rest
  | _ => false

/-- The `strftime` format string of line 173 applied to a structured time:
two-digit hour, minute, second, then a dot and the six microsecond digits. -/
def strftimeHMSf (h m s micro : Nat) : List Char :=
  pyFormat02 h ++ ':' :: pyFormat02 m ++ ':' :: pyFormat02 s ++ '.' :: pyFormat06 micro

/-- Line 173: `departure_time.strftime('%H:%M:%S.%f')[:-3]` — render and
slice the last three characters off (Python `[:-3]` is `take (length-3)`). -/
def pyFormatTimeTrunc (h m s micro : Nat) : String :=
  String.mk ((strftimeHMSf h m s micro).take ((strftimeHMSf h m s micro).length - 3))

/-- The departure-time handling of `transform_data` (lines 170-181):
structured times are rendered and truncated, strings are kept verbatim when
non-blank, not the literal `null` (case-insensitively) and matched by the
regex; everything else becomes `None`. -/
def normalizeDepTime : RawTime → Option String
  | .tod h m s micro => some (pyFormatTimeTrunc h.val m.val s.val micro.val)
  | .str s =>
    if (pyStrip s != "") && (pyLower (pyStrip s) != "null") then
      if matchesTimeRe s.data then some s else none
    else none
  | .null => none

/-- Whether the branch taken for this raw value appends a diagnostic to
`invalid_times` (lines 177 and 180). -/
def depTimeDiag : RawTime → Bool
  | .tod _ _ _ _ => false
  | .str s =>
    if (pyStrip s != "") && (pyLower (pyStrip s) != "null") then
      !matchesTimeRe s.data
    else true
  | .null => true

/-- The canonical pattern asserted by the specification: `HH:MM:SS`
optionally followed by a dot and at most three fractional digits.  Stated
from the spec text, to be compared with what the code produces. -/
def specCanonicalTime (l : List Char) : Bool :=
  match l with
  | a :: b :: c1 :: d :: e :: c2 :: f :: g :: rest =>
    isDigitC a && isDigitC b && c1 == ':' && isDigitC d && isDigitC e &&
      c2 == ':' && isDigitC f && isDigitC g &&
      (match rest with
       | [] => true
       | '.' :: frac => !frac.isEmpty && frac.length ≤ 3 && frac.all isDigitC
       | _ => false)
  | _ => false

/-! ## Transform stage (`transform_data`)

Source rows are reached in the script by column-name lookup on raw tuples;
we model each source table row as a record with exactly the columns the
script reads. -/

/-- A row of the source `FLIGHT` table, restricted to the columns
`transform_data` reads.  Delay and distance values pass through untouched
and may be NULL, hence `Option Int`. -/
structure FlightSrcRow where
  year : Nat
  month : Nat
  day : Nat
  airline : String
  origin : String
  dest : String
  distance : Option Int
  arrivalDelay : Option Int
  departureDelay : Option Int
  cancelled : Bool
  departureTime : RawTime
  cancelReason : Option String
deriving DecidableEq, Repr

/-- A candidate fact tuple as appended to `fact_flight_data` (line 183):
still carrying IATA codes, with the departure time already normalized. -/
structure Fact where
  dateKey : Nat
  airline : String
  origin : String
  dest : String
  distance : Option Int
  arrivalDelay : Option Int
  departureDelay : Option Int
  cancelled : Nat
  departureTime : Option String
  cancelReason : Option String
deriving DecidableEq, Repr

/-- The fact tuple built from one source row in the loop body of
`transform_data` (lines 153-186). -/
def mkFactRow (r : FlightSrcRow) : Fact :=
  { dateKey := dateKey r.year r.month r.day
    airline := r.airline
    origin := r.origin
    dest := r.dest
    distance := r.distance
    arrivalDelay := r.arrivalDelay
    departureDelay := r.departureDelay
    cancelled := if r.cancelled then 1 else 0
    departureTime := normalizeDepTime r.departureTime
    cancelReason := r.cancelReason }

/-- The enumerated fact loop: one fact tuple appended per source row, and a
diagnostic `(row index, original value)` appended exactly when the
departure-time branch records one. -/
def transformFactsAux : Nat → List FlightSrcRow → List Fact × List (Nat × RawTime)
  | _, [] => ([], [])
  | i, r :: rs =>
    let rest := transformFactsAux (i + 1) rs
    (mkFactRow r :: rest.1,
     if depTimeDiag r.departureTime then (i, r.departureTime) :: rest.2 else rest.2)

/-- Fact list and `invalid_times` diagnostics of `transform_data`. -/
def transformFacts (fl : List FlightSrcRow) : List Fact × List (Nat × RawTime) :=
  transformFactsAux 0 fl

/-- A row of `DimDate`: `(date_key, year, month, day)`. -/
abbrev DateRow := Nat × Nat × Nat × Nat

/-- The `dim_date_data` dictionary of lines 125-132: keyed by `date_key`,
first-seen row wins, values in insertion order. -/
def dimDateCands (fl : List FlightSrcRow) : List DateRow :=
  fl.foldl
    (fun acc r =>
      let dk := dateKey r.year r.month r.day
      if acc.any (fun e => e.1 == dk) then acc else acc ++ [(dk, r.year, r.month, r.day)])
    []

/-- The `dim_airline_data` set of lines 135-139: exact `(iata, airline)`
pairs, deduplicated by pair equality (Python `set`). -/
def dimAirlineCands (rows : List (String × String)) : List (String × String) :=
  rows.foldl (fun acc p => if p ∈ acc then acc else acc ++ [p]) []

/-- A candidate `DimAirport` tuple `(iata, airport, city, state)`. -/
structure AirportCand where
  iata : String
  name : String
  city : String
  state : String
deriving DecidableEq, Repr

/-- The `dim_airport_data` set of lines 142-148. -/
def dimAirportCands (rows : List AirportCand) : List AirportCand :=
  rows.foldl (fun acc p => if p ∈ acc then acc else acc ++ [p]) []

/-- The full return value of `transform_data`. -/
def transformData (flights : List FlightSrcRow) (airlines : List (String × String))
    (airports : List AirportCand) :
    List DateRow × List (String × String) × List AirportCand ×
      (List Fact × List (Nat × RawTime)) :=
  (dimDateCands flights, dimAirlineCands airlines, dimAirportCands airports,
    transformFacts flights)

/-! ## Warehouse state and the load stage (`load_data`)

The warehouse tables are modelled as in-memory lists.  Surrogate keys for
`DimAirline`/`DimAirport` are `IDENTITY(1,1)` columns: the storage assigns
consecutive keys starting above every key already present (hence always
positive).  The storage's UNIQUE constraints are external collaborators and
are not re-modelled here. -/

/-- A persisted `DimAirline` row. -/
structure AirlineRow where
  key : Nat
  iata : String
  name : String
deriving DecidableEq, Repr

/-- A persisted `DimAirport` row. -/
structure AirportRow where
  key : Nat
  iata : String
  name : String
  city : String
  state : String
deriving DecidableEq, Repr

/-- A persisted `FactFlight` row (all three foreign keys resolved). -/
structure FactRow where
  dateKey : Nat
  airlineKey : Nat
  originKey : Nat
  destKey : Nat
  distance : Option Int
  arrivalDelay : Option Int
  departureDelay : Option Int
  cancelled : Nat
  departureTime : Option String
  cancelReason : Option String
deriving DecidableEq, Repr

/-- The warehouse database state. -/
structure Warehouse where
  dimDate : List DateRow
  dimAirline : List AirlineRow
  dimAirport : List AirportRow
  factFlight : List FactRow
deriving DecidableEq, Repr

/-- Next `IDENTITY` key handed out by the storage. -/
def nextKey (keys : List Nat) : Nat := keys.foldr max 0 + 1

/-- Line 200: `[rec for rec in dim_date_data if rec[0] not in existing_dates]`. -/
def datesToInsert (existingKeys : List Nat) (cands : List DateRow) : List DateRow :=
  cands.filter (fun r => !(decide (r.1 ∈ existingKeys)))

/-- Line 211: airline candidates whose IATA code is not yet present. -/
def airlinesToInsert (existing : List String) (cands : List (String × String)) :
    List (String × String) :=
  cands.filter (fun r => !(decide (r.1 ∈ existing)))

/-- Line 222: airport candidates whose IATA code is not yet present. -/
def airportsToInsert (existing : List String) (cands : List AirportCand) :
    List AirportCand :=
  cands.filter (fun r => !(decide (r.iata ∈ existing)))

/-- The dimension-load step of `load_data` (lines 197-231): for each
dimension fetch the existing keys, filter the candidates, bulk-insert the
difference (the storage assigning consecutive identity keys), then commit. -/
def loadDims (w : Warehouse) (dd : List DateRow) (da : List (String × String))
    (dap : List AirportCand) : Warehouse :=
  let w1 : Warehouse :=
    { w with dimDate := w.dimDate ++ datesToInsert (w.dimDate.map (fun r => r.1)) dd }
  let newA := airlinesToInsert (w1.dimAirline.map (fun r => r.iata)) da
  let startA := nextKey (w1.dimAirline.map (fun r => r.key))
  let w2 : Warehouse :=
    { w1 with dimAirline :=
        w1.dimAirline ++ newA.enum.map (fun p => ⟨startA + p.1, p.2.1, p.2.2⟩) }
  let newP := airportsToInsert (w2.dimAirport.map (fun r => r.iata)) dap
  let startP := nextKey (w2.dimAirport.map (fun r => r.key))
  { w2 with dimAirport :=
      w2.dimAirport ++
        newP.enum.map (fun p => ⟨startP + p.1, p.2.iata, p.2.name, p.2.city, p.2.state⟩) }

/-- The dict comprehension of line 235: `iata -> key`, later rows
overwriting earlier ones, hence lookup takes the last matching entry. -/
def pyDictGet (l : List (String × Nat)) (k : String) : Option Nat :=
  (l.reverse.find? (fun p => p.1 == k)).map (fun p => p.2)

/-- The `airline_map` of line 235, read from the warehouse. -/
def airlineMapOf (w : Warehouse) : List (String × Nat) :=
  w.dimAirline.map (fun r => (r.iata, r.key))

/-- The `airport_map` of line 237. -/
def airportMapOf (w : Warehouse) : List (String × Nat) :=
  w.dimAirport.map (fun r => (r.iata, r.key))

/-- The date keys currently persisted (the `date_map` of line 239 maps each
key to itself, so it is just a membership set). -/
def dateKeysOf (w : Warehouse) : List Nat := w.dimDate.map (fun r => r.1)

/-- Python truthiness of `dict.get`: `None` and `0` are falsy. -/
def truthyKey : Option Nat → Bool
  | none => false
  | some k => k != 0

/-- The admission test of line 254:
`if airline_key and origin_key and dest_key and date_key in date_map`. -/
def admissibleB (am apm : List (String × Nat)) (dm : List Nat) (f : Fact) : Bool :=
  truthyKey (pyDictGet am f.airline) && truthyKey (pyDictGet apm f.origin) &&
    truthyKey (pyDictGet apm f.dest) && decide (f.dateKey ∈ dm)

/-- The resolved tuple appended to `batch_params` (line 255). -/
def resolveFact (am apm : List (String × Nat)) (f : Fact) : FactRow :=
  { dateKey := f.dateKey
    airlineKey := (pyDictGet am f.airline).getD 0
    originKey := (pyDictGet apm f.origin).getD 0
    destKey := (pyDictGet apm f.dest).getD 0
    distance := f.distance
    arrivalDelay := f.arrivalDelay
    departureDelay := f.departureDelay
    cancelled := f.cancelled
    departureTime := f.departureTime
    cancelReason := f.cancelReason }

/-- Observable storage events of the fact-insert phase: one bulk insert of
`n` rows (`executemany`), or a transaction commit. -/
inductive Ev where
  | insert (n : Nat)
  | commit
deriving DecidableEq, Repr

/-- Loop state of the fact-insert phase: the pending `batch_params`, the
rows handed to `executemany` so far, the `total_inserted` and
`skipped_rows` counters and the emitted event trace. -/
structure FactSt where
  batch : List FactRow
  inserted : List FactRow
  total : Nat
  skipped : Nat
  events : List Ev
deriving DecidableEq, Repr

/-- State at the top of the fact loop (lines 242-244). -/
def initFactSt : FactSt := ⟨[], [], 0, 0, []⟩

/-- Lines 263-274: `executemany` on the pending batch, add its size to
`total_inserted`, clear the batch. -/
def flushBatch (st : FactSt) : FactSt :=
  ⟨[], st.inserted ++ st.batch, st.total + st.batch.length, st.skipped,
    st.events ++ [Ev.insert st.batch.length]⟩

/-- One iteration of the fact loop (lines 246-274): admit or skip the row,
then flush if the pending batch reached `BATCH_SIZE`. -/
def factStep (B : Nat) (am apm : List (String × Nat)) (dm : List Nat)
    (st : FactSt) (f : Fact) : FactSt :=
  let st1 :=
    if admissibleB am apm dm f then
      { st with batch := st.batch ++ [resolveFact am apm f] }
    else
      { st with skipped := st.skipped + 1 }
  if B ≤ st1.batch.length then flushBatch st1 else st1

/-- The fact loop over all candidate rows. -/
def factLoop (B : Nat) (am apm : List (String × Nat)) (dm : List Nat) :
    List Fact → FactSt → FactSt
  | [], st => st
  | f :: fs, st => factLoop B am apm dm fs (factStep B am apm dm st f)

/-- Lines 277-289: flush the remaining partial batch if non-empty, then the
single commit that ends the fact phase. -/
def factFinish (st : FactSt) : FactSt :=
  let st1 := if st.batch.isEmpty then st else flushBatch st
  { st1 with events := st1.events ++ [Ev.commit] }

/-- The configured `BATCH_SIZE` of line 7. -/
def BATCH_SIZE : Nat := 50000

/-- The whole fact-insert phase of `load_data` (lines 242-289). -/
def factPhase (B : Nat) (am apm : List (String × Nat)) (dm : List Nat)
    (facts : List Fact) : FactSt :=
  factFinish (factLoop B am apm dm facts initFactSt)

/-- `load_data` (lines 194-292): dimension loads and commit, mapping
refresh, then the chunked fact insert.  Returns the new warehouse state and
the final fact-phase state (counters and event trace). -/
def loadData (w : Warehouse) (dd : List DateRow) (da : List (String × String))
    (dap : List AirportCand) (facts : List Fact) : Warehouse × FactSt :=
  let w1 := loadDims w dd da dap
  let r := factPhase BATCH_SIZE (airlineMapOf w1) (airportMapOf w1) (dateKeysOf w1) facts
  ({ w1 with factFlight := w1.factFlight ++ r.inserted }, r)

/-- Event trace of a chunked insert of `a` admitted rows with batch size
`B`: full chunks, an optional final partial chunk, one final commit. -/
def chunkEvents (a B : Nat) : List Ev :=
  List.replicate (a / B) (Ev.insert B) ++
    (if a % B = 0 then [] else [Ev.insert (a % B)]) ++ [Ev.commit]

/-- Spec-side predicate for claim C4: every bulk insert in the trace is
immediately followed by a commit. -/
def eachInsertThenCommit : List Ev → Bool
  | [] => true
  | Ev.insert _ :: rest =>
    (match rest with
     | Ev.commit :: _ => true
     | _ => false) && eachInsertThenCommit rest
  | Ev.commit :: rest => eachInsertThenCommit rest

/-- Referential integrity of a warehouse state: every fact row references
an existing row in each of the three dimensions. -/
def fkOk (w : Warehouse) : Prop :=
  ∀ f ∈ w.factFlight,
    f.dateKey ∈ dateKeysOf w ∧
    (∃ r ∈ w.dimAirline, r.key = f.airlineKey) ∧
    (∃ r ∈ w.dimAirport, r.key = f.originKey) ∧
    (∃ r ∈ w.dimAirport, r.key = f.destKey)

/-- All surrogate keys positive — what `IDENTITY(1,1)` guarantees for
warehouse-assigned keys. -/
def keysPos (w : Warehouse) : Prop :=
  (∀ r ∈ w.dimAirline, 0 < r.key) ∧ (∀ r ∈ w.dimAirport, 0 < r.key)

/-! ## Year pipeline driver (`etl_process`, lines 299-359) -/

/-- Outcome of processing one source period, as observable at the
warehouse: the source connection fails (line 321, nothing ran), an
exception is raised before any commit (rolled back, nothing persisted), an
exception is raised in the fact phase after the dimension commit of line
231 (dimensions persist, fact inserts roll back), or full success. -/
inductive PeriodOutcome where
  | connFail
  | preLoadFail
  | factPhaseFail (dd : List DateRow) (da : List (String × String)) (dap : List AirportCand)
  | success (dd : List DateRow) (da : List (String × String)) (dap : List AirportCand)
      (facts : List Fact)
deriving DecidableEq, Repr

/-- Whether the period failed (line 321 `continue`, or the except branch of
line 341). -/
def isFailOutcome : PeriodOutcome → Bool
  | PeriodOutcome.success _ _ _ _ => false
  | _ => true

/-- Effect of one period on the warehouse. -/
def runPeriod (w : Warehouse) : PeriodOutcome → Warehouse
  | PeriodOutcome.connFail => w
  | PeriodOutcome.preLoadFail => w
  | PeriodOutcome.factPhaseFail dd da dap => loadDims w dd da dap
  | PeriodOutcome.success dd da dap facts => (loadData w dd da dap facts).1

/-- The period loop of lines 317-345: every configured period is attempted
in order, failures notwithstanding.  Returns the final warehouse and the
list of period identifiers that were attempted. -/
def etlRun (w : Warehouse) : List (Nat × PeriodOutcome) → Warehouse × List Nat
  | [] => (w, [])
  | p :: ps =>
    let r := etlRun (runPeriod w p.2) ps
    (r.1, p.1 :: r.2)

/-- `etl_process`: run all periods, then report the total number of fact
rows in the warehouse (the `SELECT COUNT(*)` of line 348). -/
def etlProcess (w : Warehouse) (ps : List (Nat × PeriodOutcome)) :
    Warehouse × List Nat × Nat :=
  let r := etlRun w ps
  (r.1, r.2, r.1.factFlight.length)

/-- Warehouse state after a prefix of the configured periods. -/
def stateAfter (w : Warehouse) (ps : List (Nat × PeriodOutcome)) : Warehouse :=
  ps.foldl (fun wa p => runPeriod wa p.2) w

/-! ### Value and shape lemmas for the decimal machinery -/

theorem digitsRevAux_lt10 : ∀ fuel n, ∀ d ∈ digitsRevAux fuel n, d < 10 := by
  intro fuel
  induction fuel with
  | zero =>
    intro n d hd
    simp only [digitsRevAux, List.mem_singleton] at hd
    subst hd
    exact Nat.mod_lt _ (by omega)
  | succ fuel ih =>
    intro n d hd
    by_cases h : n < 10
    · simp only [digitsRevAux, if_pos h, List.mem_singleton] at hd
      omega
    · simp only [digitsRevAux, if_neg h, List.mem_cons] at hd
      rcases hd with h1 | h2
      · subst h1; exact Nat.mod_lt _ (by omega)
      · exact ih _ _ h2

theorem digitsRev_lt10 (n : Nat) : ∀ d ∈ digitsRev n, d < 10 :=
  digitsRevAux_lt10 n n

/-- Value of a digit list read most-significant-first. -/
def valMSD (l : List Nat) : Nat := l.foldl (fun a d => a * 10 + d) 0

/-- Generic shift lemma for decimal accumulation folds. -/
theorem foldl_decimal_shift {α : Type} (f : α → Nat) (l : List α) :
    ∀ a, l.foldl (fun x c => x * 10 + f c) a =
      a * 10 ^ l.length + l.foldl (fun x c => x * 10 + f c) 0 := by
  induction l with
  | nil => intro a; simp
  | cons c l ih =>
    intro a
    simp only [List.foldl_cons, List.length_cons]
    rw [ih (a * 10 + f c), ih (0 * 10 + f c)]
    ring

theorem valMSD_append (l1 l2 : List Nat) :
    valMSD (l1 ++ l2) = valMSD l1 * 10 ^ l2.length + valMSD l2 := by
  simp only [valMSD, List.foldl_append]
  exact foldl_decimal_shift (fun d => d) l2 _

set_option maxHeartbeats 1000000 in
theorem pyIntChars_append (l1 l2 : List Char) :
    pyIntChars (l1 ++ l2) = pyIntChars l1 * 10 ^ l2.length + pyIntChars l2 := by
  have h := foldl_decimal_shift (fun c : Char => c.toNat - 48) l2 (pyIntChars l1)
  simp only [pyIntChars, List.foldl_append]
  exact h

theorem valMSD_digitsRevAux :
    ∀ fuel n, n ≤ fuel → valMSD (digitsRevAux fuel n).reverse = n := by
  intro fuel
  induction fuel with
  | zero =>
    intro n hn
    have h0 : n = 0 := by omega
    subst h0
    simp [digitsRevAux, valMSD]
  | succ fuel ih =>
    intro n hn
    by_cases h : n < 10
    · simp [digitsRevAux, if_pos h, valMSD]
    · have hdiv : n / 10 < n := Nat.div_lt_self (by omega) (by omega)
      have hfuel : n / 10 ≤ fuel := by omega
      simp only [digitsRevAux, if_neg h, List.reverse_cons]
      rw [valMSD_append, ih _ hfuel]
      simp only [valMSD, List.foldl_cons, List.foldl_nil, List.length_cons,
        List.length_nil, pow_one, pow_zero]
      omega

theorem valMSD_digitsRev (n : Nat) : valMSD (digitsRev n).reverse = n :=
  valMSD_digitsRevAux n n (Nat.le_refl n)

/-- Pointwise congruence for left folds. -/
theorem foldl_congr_mem {α β : Type} (l : List α) (f g : β → α → β) (a : β)
    (h : ∀ b x, x ∈ l → f b x = g b x) : l.foldl f a = l.foldl g a := by
  induction l generalizing a with
  | nil => rfl
  | cons c l ih =>
    simp only [List.foldl_cons]
    rw [h a c (by simp)]
    exact ih _ (fun b x hx => h b x (by simp [hx]))

theorem pyIntChars_map_digitChar (l : List Nat) (hl : ∀ d ∈ l, d < 10) :
    pyIntChars (l.map Nat.digitChar) = valMSD l := by
  have hchar : ∀ d : Nat, d < 10 → (Nat.digitChar d).toNat - 48 = d := by decide
  simp only [pyIntChars, List.foldl_map, valMSD]
  exact foldl_congr_mem l _ _ 0 (fun b x hx => by rw [hchar x (hl x hx)])

theorem pyIntChars_pyStrNatL (n : Nat) : pyIntChars (pyStrNatL n) = n := by
  have h1 : pyStrNatL n = ((digitsRev n).reverse).map Nat.digitChar := by
    simp [pyStrNatL, List.map_reverse]
  rw [h1, pyIntChars_map_digitChar _ (fun d hd => digitsRev_lt10 n d (by simpa using hd))]
  exact valMSD_digitsRev n

theorem digitsRevAux_small (fuel n : Nat) (h : n < 10) :
    digitsRevAux fuel n = [n] := by
  cases fuel with
  | zero => simp [digitsRevAux, Nat.mod_eq_of_lt h]
  | succ fuel => simp [digitsRevAux, if_pos h]

theorem digitsRev_two (n : Nat) (h1 : 10 ≤ n) (h2 : n < 100) :
    digitsRev n = [n % 10, n / 10] := by
  show digitsRevAux n n = _
  cases n with
  | zero => omega
  | succ m =>
    simp only [digitsRevAux, if_neg (by omega : ¬ m + 1 < 10)]
    rw [digitsRevAux_small m ((m + 1) / 10) (by omega)]

theorem pyStrNatL_one (n : Nat) (h : n < 10) : pyStrNatL n = [Nat.digitChar n] := by
  simp [pyStrNatL, digitsRev, digitsRevAux_small _ _ h]

theorem pyStrNatL_two (n : Nat) (h1 : 10 ≤ n) (h2 : n < 100) :
    pyStrNatL n = [Nat.digitChar (n / 10), Nat.digitChar (n % 10)] := by
  simp [pyStrNatL, digitsRev_two n h1 h2]

theorem pyFormat02_length (n : Nat) (h : n < 100) : (pyFormat02 n).length = 2 := by
  by_cases h1 : n < 10
  · simp [pyFormat02, if_pos h1, pyStrNatL_one n h1]
  · simp [pyFormat02, if_neg h1, pyStrNatL_two n (by omega) h]

theorem pyIntChars_pyFormat02 (n : Nat) (h : n < 100) :
    pyIntChars (pyFormat02 n) = n := by
  by_cases h1 : n < 10
  · simp only [pyFormat02, if_pos h1]
    have h0 : pyIntChars ('0' :: pyStrNatL n) = pyIntChars (pyStrNatL n) := by
      simp [pyIntChars, List.foldl_cons]
    rw [h0, pyIntChars_pyStrNatL]
  · simp only [pyFormat02, if_neg h1]
    exact pyIntChars_pyStrNatL n

/-- Claim C9: for every flight source row, the derived `date_key` equals
`year*10000 + month*100 + day` whenever month and day fit their two-digit
zero-padded fields (the script formats them with `02d`); in particular
`(2023, 3, 5)` yields `20230305`. -/
theorem claim_C9_dateKey (y m d : Nat) (hm : m < 100) (hd : d < 100) :
    dateKey y m d = y * 10000 + m * 100 + d := by
  unfold dateKey
  rw [List.append_assoc, pyIntChars_append, pyIntChars_append,
    pyIntChars_pyStrNatL, pyIntChars_pyFormat02 m hm, pyIntChars_pyFormat02 d hd,
    List.length_append, pyFormat02_length m hm, pyFormat02_length d hd]
  norm_num
  ring

/-- Witness for C9 at the concrete date of the claim. -/
theorem claim_C9_dateKey_witness :
    3 < 100 ∧ 5 < 100 ∧ dateKey 2023 3 5 = 20230305 :=
  ⟨by omega, by omega, by
    have h := claim_C9_dateKey 2023 3 5 (by omega) (by omega)
    rw [h]⟩

theorem digitChar_isDigit (d : Nat) (h : d < 10) : isDigitC (Nat.digitChar d) = true := by
  interval_cases d <;> decide

theorem pyStrNatL_digits (n : Nat) : ∀ c ∈ pyStrNatL n, isDigitC c = true := by
  intro c hc
  simp only [pyStrNatL, List.mem_reverse, List.mem_map] at hc
  obtain ⟨d, hd, rfl⟩ := hc
  exact digitChar_isDigit d (digitsRev_lt10 n d hd)

theorem pyFormat02_digits (n : Nat) : ∀ c ∈ pyFormat02 n, isDigitC c = true := by
  intro c hc
  by_cases h : n < 10
  · simp only [pyFormat02, if_pos h, List.mem_cons] at hc
    rcases hc with rfl | hc
    · decide
    · exact pyStrNatL_digits n c hc
  · simp only [pyFormat02, if_neg h] at hc
    exact pyStrNatL_digits n c hc

theorem pyFormat06_digits (n : Nat) : ∀ c ∈ pyFormat06 n, isDigitC c = true := by
  intro c hc
  simp only [pyFormat06, List.mem_append, List.mem_replicate] at hc
  rcases hc with ⟨-, rfl⟩ | hc
  · decide
  · exact pyStrNatL_digits n c hc

theorem digitsRevAux_length_le :
    ∀ fuel n k, n < 10 ^ (k + 1) → (digitsRevAux fuel n).length ≤ k + 1 := by
  intro fuel
  induction fuel with
  | zero => intro n k _; simp [digitsRevAux]
  | succ fuel ih =>
    intro n k hn
    by_cases h : n < 10
    · simp [digitsRevAux, if_pos h]
    · cases k with
      | zero => simp at hn; omega
      | succ k =>
        simp only [digitsRevAux, if_neg h, List.length_cons]
        have hdiv : n / 10 < 10 ^ (k + 1) := by
          have h2 : n < 10 ^ (k + 1) * 10 := by
            rw [pow_succ] at hn; omega
          omega
        have := ih (n / 10) k hdiv
        omega

theorem pyStrNatL_length_le6 (n : Nat) (h : n < 1000000) : (pyStrNatL n).length ≤ 6 := by
  have h6 : (10 : Nat) ^ (5 + 1) = 1000000 := by norm_num
  have := digitsRevAux_length_le n n 5 (by omega)
  simp only [pyStrNatL, List.length_reverse, List.length_map]
  exact this

theorem pyFormat06_length (n : Nat) (h : n < 1000000) : (pyFormat06 n).length = 6 := by
  have h6 := pyStrNatL_length_le6 n h
  simp only [pyFormat06, List.length_append, List.length_replicate]
  omega

theorem isDigitC_ne_newline (c : Char) (h : isDigitC c = true) : c ≠ '\n' := by
  intro he
  subst he
  exact absurd h (by decide)

/-- The structured-time branch always yields a string accepted by the
script's own regex: two-digit fields and exactly three fractional digits. -/
theorem matchesTimeRe_formatTrunc (h m s micro : Nat)
    (hh : h < 24) (hm : m < 60) (hs : s < 60) (hmc : micro < 1000000) :
    matchesTimeRe (pyFormatTimeTrunc h m s micro).data = true := by
  obtain ⟨a1, a2, hA⟩ := List.length_eq_two.mp (pyFormat02_length h (by omega))
  obtain ⟨b1, b2, hB⟩ := List.length_eq_two.mp (pyFormat02_length m (by omega))
  obtain ⟨c1, c2, hC⟩ := List.length_eq_two.mp (pyFormat02_length s (by omega))
  have hF6 : (pyFormat06 micro).length = 6 := pyFormat06_length micro hmc
  have hTD : pyFormat06 micro = (pyFormat06 micro).take 3 ++ (pyFormat06 micro).drop 3 :=
    (List.take_append_drop 3 _).symm
  have hT3 : ((pyFormat06 micro).take 3).length = 3 := by
    simp [List.length_take, hF6]
  obtain ⟨f1, f2, f3, hT⟩ := List.length_eq_three.mp hT3
  have hD3 : ((pyFormat06 micro).drop 3).length = 3 := by
    simp [List.length_drop, hF6]
  have da1 : isDigitC a1 = true := pyFormat02_digits h a1 (by rw [hA]; simp)
  have da2 : isDigitC a2 = true := pyFormat02_digits h a2 (by rw [hA]; simp)
  have db1 : isDigitC b1 = true := pyFormat02_digits m b1 (by rw [hB]; simp)
  have db2 : isDigitC b2 = true := pyFormat02_digits m b2 (by rw [hB]; simp)
  have dc1 : isDigitC c1 = true := pyFormat02_digits s c1 (by rw [hC]; simp)
  have dc2 : isDigitC c2 = true := pyFormat02_digits s c2 (by rw [hC]; simp)
  have df1 : isDigitC f1 = true := by
    have hmem : f1 ∈ (pyFormat06 micro).take 3 := by rw [hT]; simp
    exact pyFormat06_digits micro f1 (List.mem_of_mem_take hmem)
  have df2 : isDigitC f2 = true := by
    have hmem : f2 ∈ (pyFormat06 micro).take 3 := by rw [hT]; simp
    exact pyFormat06_digits micro f2 (List.mem_of_mem_take hmem)
  have df3 : isDigitC f3 = true := by
    have hmem : f3 ∈ (pyFormat06 micro).take 3 := by rw [hT]; simp
    exact pyFormat06_digits micro f3 (List.mem_of_mem_take hmem)
  have hsplit : strftimeHMSf h m s micro =
      (a1 :: a2 :: ':' :: b1 :: b2 :: ':' :: c1 :: c2 :: '.' :: f1 :: f2 :: f3 :: []) ++
        (pyFormat06 micro).drop 3 := by
    unfold strftimeHMSf
    rw [hA, hB, hC]
    conv_lhs => rw [hTD, hT]
    simp
  unfold pyFormatTimeTrunc
  rw [hsplit]
  have h12 : ((a1 :: a2 :: ':' :: b1 :: b2 :: ':' :: c1 :: c2 :: '.' :: f1 :: f2 :: f3 :: []) : List Char).length = 12 := by simp
  rw [show (((a1 :: a2 :: ':' :: b1 :: b2 :: ':' :: c1 :: c2 :: '.' :: f1 :: f2 :: f3 :: []) ++ (pyFormat06 micro).drop 3 : List Char).length - 3) = 12 by simp [hD3]]
  rw [← h12, List.take_left]
  simp only [matchesTimeRe, matchTail, fracOk]
  rw [da1, da2, db1, db2, dc1, dc2]
  have hne : (f3 == '\n') = false := by
    have h3 := isDigitC_ne_newline f3 df3
    simp [h3]
  simp [hne, df1, df2, df3]

/-- Claim C7 (amended): every raw departure-time input yields either a
string accepted by the script's own time pattern — `HH:MM:SS` with one to
seven optional fractional digits (only structured time-of-day inputs are
truncated to exactly three; accepted free-text strings pass through
unmodified) — or null together with a recorded diagnostic.  The concrete
examples of the claim hold as stated: `"08:15:00"` is kept, `"8:15"`,
blank and the case-insensitive literal null map to null with a diagnostic,
and the structured time 08:15:00.1234560 maps to `"08:15:00.123"`. -/
theorem claim_C7_timeNormalizer :
    (∀ raw : RawTime,
      (∃ s, normalizeDepTime raw = some s ∧ matchesTimeRe s.data = true) ∨
        (normalizeDepTime raw = none ∧ depTimeDiag raw = true)) ∧
    normalizeDepTime (RawTime.str "08:15:00") = some "08:15:00" ∧
    (normalizeDepTime (RawTime.str "8:15") = none ∧
      depTimeDiag (RawTime.str "8:15") = true) ∧
    (normalizeDepTime (RawTime.str "") = none ∧
      depTimeDiag (RawTime.str "") = true) ∧
    (normalizeDepTime (RawTime.str "NULL") = none ∧
      depTimeDiag (RawTime.str "NULL") = true) ∧
    normalizeDepTime (RawTime.tod 8 15 0 123456) = some "08:15:00.123" := by
  refine ⟨?_, by decide, by decide, by decide, by decide, by decide⟩
  intro raw
  cases raw with
  | tod h m s micro =>
    left
    exact ⟨_, rfl,
      matchesTimeRe_formatTrunc h.val m.val s.val micro.val h.isLt m.isLt s.isLt micro.isLt⟩
  | str s =>
    by_cases hg : ((pyStrip s != "") && (pyLower (pyStrip s) != "null")) = true
    · by_cases hm2 : matchesTimeRe s.data = true
      · left
        exact ⟨s, by simp [normalizeDepTime, hg, hm2], hm2⟩
      · right
        constructor
        · simp [normalizeDepTime, hg, hm2]
        · simp [depTimeDiag, hg, hm2]
    · right
      constructor
      · simp [normalizeDepTime, hg]
      · simp [depTimeDiag, hg]
  | null =>
    right
    exact ⟨rfl, rfl⟩

/-- Counterexample to claim C7 as stated: the free-text input
`"08:15:00.1234567"` passes the script's validation and is stored verbatim
with seven fractional digits, so the output does not match the canonical
`HH:MM:SS` pattern with at most three fractional digits asserted by the
claim. -/
theorem claim_C7_counterexample :
    normalizeDepTime (RawTime.str "08:15:00.1234567") = some "08:15:00.1234567" ∧
    specCanonicalTime ("08:15:00.1234567".data) = false := by
  exact ⟨by decide, by decide⟩

theorem transformFactsAux_spec (fl : List FlightSrcRow) :
    ∀ i, (transformFactsAux i fl).1 = fl.map mkFactRow ∧
      (transformFactsAux i fl).2 =
        ((fl.enumFrom i).filter (fun p => depTimeDiag p.2.departureTime)).map
          (fun p => (p.1, p.2.departureTime)) := by
  induction fl with
  | nil => intro i; simp [transformFactsAux]
  | cons r rs ih =>
    intro i
    obtain ⟨ih1, ih2⟩ := ih (i + 1)
    constructor
    · simp [transformFactsAux, ih1]
    · by_cases hd : depTimeDiag r.departureTime = true
      · simp [transformFactsAux, hd, List.enumFrom, ih2]
      · simp only [Bool.not_eq_true] at hd
        simp [transformFactsAux, hd, List.enumFrom, ih2]

/-- Claim C10: `transform_data` emits exactly one fact tuple per input row,
in input order — a malformed or missing departure time only nulls the time
field and records a diagnostic `(row index, original value)`, it never
drops the row. -/
theorem claim_C10_no_row_filtering (fl : List FlightSrcRow) :
    (transformFacts fl).1 = fl.map mkFactRow ∧
    (transformFacts fl).2 =
      ((fl.enum).filter (fun p => depTimeDiag p.2.departureTime)).map
        (fun p => (p.1, p.2.departureTime)) :=
  transformFactsAux_spec fl 0

theorem setFold_nodup (rows : List (String × String)) :
    ∀ acc : List (String × String), acc.Nodup →
      (rows.foldl (fun acc p => if p ∈ acc then acc else acc ++ [p]) acc).Nodup := by
  induction rows with
  | nil => intro acc h; exact h
  | cons r rs ih =>
    intro acc h
    simp only [List.foldl_cons]
    by_cases hr : r ∈ acc
    · simpa [hr] using ih acc h
    · have hnd : (acc ++ [r]).Nodup := by
        simp [List.nodup_append, h, hr]
      simpa [hr] using ih (acc ++ [r]) hnd

theorem setFold_mem (rows : List (String × String)) :
    ∀ acc : List (String × String),
      ∀ x ∈ rows.foldl (fun acc p => if p ∈ acc then acc else acc ++ [p]) acc,
        x ∈ acc ∨ x ∈ rows := by
  induction rows with
  | nil => intro acc x hx; exact Or.inl hx
  | cons r rs ih =>
    intro acc x hx
    simp only [List.foldl_cons] at hx
    by_cases hr : r ∈ acc
    · rw [if_pos hr] at hx
      rcases ih acc x hx with h | h
      · exact Or.inl h
      · exact Or.inr (by simp [h])
    · rw [if_neg hr] at hx
      rcases ih (acc ++ [r]) x hx with h | h
      · rcases List.mem_append.mp h with h1 | h1
        · exact Or.inl h1
        · simp only [List.mem_singleton] at h1
          exact Or.inr (by simp [h1])
      · exact Or.inr (by simp [h])

/-- Counterexample to claim C8 as stated: two airline reference rows with
the same IATA code but different names survive as two distinct candidates,
and both are scheduled for insertion into an empty dimension, so the
candidate set does not collapse to one row per `iata_code`. -/
theorem claim_C8_counterexample :
    dimAirlineCands [("AA", "American Airlines"), ("AA", "American")] =
      [("AA", "American Airlines"), ("AA", "American")] ∧
    ¬ ((dimAirlineCands [("AA", "American Airlines"), ("AA", "American")]).map
        Prod.fst).Nodup ∧
    airlinesToInsert []
        (dimAirlineCands [("AA", "American Airlines"), ("AA", "American")]) =
      [("AA", "American Airlines"), ("AA", "American")] := by
  refine ⟨by decide, by decide, by decide⟩

/-- Claim C8 (amended): the airline candidate set deduplicates exact
`(iata_code, name)` pairs; when every IATA code carries a single name in
the reference rows — the intended shape of the data, matching the UNIQUE
constraint of the dimension — the candidate set and the rows scheduled for
insertion contain no two entries with the same `iata_code`.  With
conflicting names for one code, duplicates per `iata_code` survive and
uniqueness is left to the storage's UNIQUE constraint. -/
theorem claim_C8_airline_dedup (rows : List (String × String))
    (hfd : ∀ p ∈ rows, ∀ q ∈ rows, p.1 = q.1 → p.2 = q.2) :
    (dimAirlineCands rows).Nodup ∧
    ((dimAirlineCands rows).map Prod.fst).Nodup ∧
    ∀ existing : List String,
      ((airlinesToInsert existing (dimAirlineCands rows)).map Prod.fst).Nodup := by
  have hnd : (dimAirlineCands rows).Nodup := by
    unfold dimAirlineCands
    exact setFold_nodup rows [] List.nodup_nil
  have hmem : ∀ x ∈ dimAirlineCands rows, x ∈ rows := by
    intro x hx
    unfold dimAirlineCands at hx
    rcases setFold_mem rows [] x hx with h | h
    · exact absurd h (List.not_mem_nil x)
    · exact h
  have hmap : ((dimAirlineCands rows).map Prod.fst).Nodup := by
    refine List.Nodup.map_on ?_ hnd
    intro x hx y hy hxy
    have h2 := hfd x (hmem x hx) y (hmem y hy) hxy
    exact Prod.ext hxy h2
  refine ⟨hnd, hmap, ?_⟩
  intro existing
  have hsub : List.Sublist (airlinesToInsert existing (dimAirlineCands rows))
      (dimAirlineCands rows) := List.filter_sublist _
  exact (hsub.map Prod.fst).nodup hmap

/-- Witness for C8 at concrete conflict-free reference rows. -/
theorem claim_C8_airline_dedup_witness :
    ((airlinesToInsert ["DL"]
        (dimAirlineCands [("AA", "American"), ("DL", "Delta"), ("AA", "American")])).map
      Prod.fst).Nodup := by
  have h := claim_C8_airline_dedup
    [("AA", "American"), ("DL", "Delta"), ("AA", "American")] (by decide)
  exact h.2.2 ["DL"]

theorem factStep_admit_flush (B : Nat) (am apm : List (String × Nat)) (dm : List Nat)
    (st : FactSt) (f : Fact) (hP : admissibleB am apm dm f = true)
    (hfull : st.batch.length + 1 = B) :
    factStep B am apm dm st f =
      ⟨[], st.inserted ++ (st.batch ++ [resolveFact am apm f]), st.total + B, st.skipped,
        st.events ++ [Ev.insert B]⟩ := by
  simp only [factStep, hP, if_true, flushBatch]
  rw [if_pos (by simp [hfull] : B ≤ (st.batch ++ [resolveFact am apm f]).length)]
  simp [flushBatch, hfull]

theorem factStep_admit_keep (B : Nat) (am apm : List (String × Nat)) (dm : List Nat)
    (st : FactSt) (f : Fact) (hP : admissibleB am apm dm f = true)
    (hlt : st.batch.length + 1 < B) :
    factStep B am apm dm st f = { st with batch := st.batch ++ [resolveFact am apm f] } := by
  simp only [factStep, hP, if_true]
  rw [if_neg (by simp; omega)]

theorem factStep_skip (B : Nat) (am apm : List (String × Nat)) (dm : List Nat)
    (st : FactSt) (f : Fact) (hP : admissibleB am apm dm f = false)
    (hlt : st.batch.length < B) :
    factStep B am apm dm st f = { st with skipped := st.skipped + 1 } := by
  simp only [factStep, hP, Bool.false_eq_true, if_false]
  rw [if_neg (by simp; omega)]

theorem factLoop_spec (B : Nat) (hB : 0 < B) (am apm : List (String × Nat)) (dm : List Nat)
    (fs : List Fact) :
    ∀ st : FactSt, st.batch.length < B →
      (factLoop B am apm dm fs st).inserted ++ (factLoop B am apm dm fs st).batch =
          st.inserted ++ st.batch ++
            (fs.filter (admissibleB am apm dm)).map (resolveFact am apm) ∧
        (factLoop B am apm dm fs st).skipped =
          st.skipped + (fs.filter (fun f => !admissibleB am apm dm f)).length ∧
        (factLoop B am apm dm fs st).batch.length =
          (st.batch.length + (fs.filter (admissibleB am apm dm)).length) % B ∧
        (factLoop B am apm dm fs st).events =
          st.events ++ List.replicate
            ((st.batch.length + (fs.filter (admissibleB am apm dm)).length) / B)
            (Ev.insert B) ∧
        (factLoop B am apm dm fs st).total =
          st.total + (st.batch.length + (fs.filter (admissibleB am apm dm)).length) -
            (st.batch.length + (fs.filter (admissibleB am apm dm)).length) % B := by
  induction fs with
  | nil =>
    intro st hst
    refine ⟨by simp [factLoop], by simp [factLoop], ?_, ?_, ?_⟩
    · simp only [factLoop, List.filter_nil, List.length_nil, Nat.add_zero]
      exact (Nat.mod_eq_of_lt hst).symm
    · simp only [factLoop, List.filter_nil, List.length_nil, Nat.add_zero]
      rw [Nat.div_eq_of_lt hst]
      simp
    · simp only [factLoop, List.filter_nil, List.length_nil, Nat.add_zero]
      rw [Nat.mod_eq_of_lt hst]
      omega
  | cons f fs ih =>
    intro st hst
    have hloop : factLoop B am apm dm (f :: fs) st =
        factLoop B am apm dm fs (factStep B am apm dm st f) := rfl
    by_cases hP : admissibleB am apm dm f = true
    · by_cases hfull : st.batch.length + 1 = B
      · rw [hloop, factStep_admit_flush B am apm dm st f hP hfull]
        obtain ⟨i1, i2, i3, i4, i5⟩ :=
          ih ⟨[], st.inserted ++ (st.batch ++ [resolveFact am apm f]), st.total + B,
            st.skipped, st.events ++ [Ev.insert B]⟩ (by simpa using hB)
        dsimp only at i1 i2 i3 i4 i5
        simp only [List.length_nil, Nat.zero_add] at i3 i4 i5
        have hfc : (f :: fs).filter (admissibleB am apm dm) =
            f :: fs.filter (admissibleB am apm dm) := List.filter_cons_of_pos hP
        have hfn : (f :: fs).filter (fun f => !admissibleB am apm dm f) =
            fs.filter (fun f => !admissibleB am apm dm f) :=
          List.filter_cons_of_neg (by simp [hP])
        set a := (fs.filter (admissibleB am apm dm)).length with ha
        have hmod : (st.batch.length + ((f :: fs).filter (admissibleB am apm dm)).length) % B
            = a % B := by
          rw [hfc]
          simp only [List.length_cons]
          rw [show st.batch.length + (a + 1) = B + a by omega, Nat.add_mod_left]
        have hdiv : (st.batch.length + ((f :: fs).filter (admissibleB am apm dm)).length) / B
            = a / B + 1 := by
          rw [hfc]
          simp only [List.length_cons]
          rw [show st.batch.length + (a + 1) = B + a by omega, Nat.add_div_left a hB]
        refine ⟨?_, ?_, ?_, ?_, ?_⟩
        · rw [i1, hfc]
          simp [List.append_assoc]
        · rw [i2, hfn]
        · rw [i3, hmod]
        · rw [i4, hdiv]
          simp [List.replicate_succ, List.append_assoc]
        · rw [i5, hmod, hfc]
          simp only [List.length_cons]
          have h1 : a % B ≤ a := Nat.mod_le a B
          omega
      · have hlt : st.batch.length + 1 < B := by omega
        rw [hloop, factStep_admit_keep B am apm dm st f hP hlt]
        obtain ⟨i1, i2, i3, i4, i5⟩ :=
          ih { st with batch := st.batch ++ [resolveFact am apm f] } (by simpa using hlt)
        dsimp only at i1 i2 i3 i4 i5
        simp only [List.length_append, List.length_singleton] at i3 i4 i5
        rw [show st.batch.length + 1 + (fs.filter (admissibleB am apm dm)).length =
            st.batch.length + ((fs.filter (admissibleB am apm dm)).length + 1) from by omega]
          at i3 i4 i5
        have hfc : (f :: fs).filter (admissibleB am apm dm) =
            f :: fs.filter (admissibleB am apm dm) := List.filter_cons_of_pos hP
        have hfn : (f :: fs).filter (fun f => !admissibleB am apm dm f) =
            fs.filter (fun f => !admissibleB am apm dm f) :=
          List.filter_cons_of_neg (by simp [hP])
        have hlen : (st.batch ++ [resolveFact am apm f]).length = st.batch.length + 1 := by
          simp
        refine ⟨?_, ?_, ?_, ?_, ?_⟩
        · rw [i1, hfc]
          simp [List.append_assoc]
        · rw [i2, hfn]
        · rw [i3, hfc]
          simp only [List.length_cons]
        · rw [i4, hfc]
          simp only [List.length_cons]
        · rw [i5, hfc]
          simp only [List.length_cons]
    · have hPf : admissibleB am apm dm f = false := by
        simpa using hP
      rw [hloop, factStep_skip B am apm dm st f hPf hst]
      obtain ⟨i1, i2, i3, i4, i5⟩ := ih { st with skipped := st.skipped + 1 } hst
      dsimp only at i1 i2 i3 i4 i5
      have hfc : (f :: fs).filter (admissibleB am apm dm) =
          fs.filter (admissibleB am apm dm) := List.filter_cons_of_neg (by simp [hPf])
      have hfn : (f :: fs).filter (fun f => !admissibleB am apm dm f) =
          f :: fs.filter (fun f => !admissibleB am apm dm f) :=
        List.filter_cons_of_pos (by simp [hPf])
      refine ⟨?_, ?_, ?_, ?_, ?_⟩
      · rw [i1, hfc]
      · rw [i2, hfn]
        simp only [List.length_cons]
        omega
      · rw [i3, hfc]
      · rw [i4, hfc]
      · rw [i5, hfc]



theorem factPhase_spec (B : Nat) (hB : 0 < B) (am apm : List (String × Nat)) (dm : List Nat)
    (fs : List Fact) :
    (factPhase B am apm dm fs).inserted =
        (fs.filter (admissibleB am apm dm)).map (resolveFact am apm) ∧
      (factPhase B am apm dm fs).total = (fs.filter (admissibleB am apm dm)).length ∧
      (factPhase B am apm dm fs).skipped =
        (fs.filter (fun f => !admissibleB am apm dm f)).length ∧
      (factPhase B am apm dm fs).events =
        chunkEvents ((fs.filter (admissibleB am apm dm)).length) B := by
  obtain ⟨i1, i2, i3, i4, i5⟩ :=
    factLoop_spec B hB am apm dm fs initFactSt (by simpa [initFactSt] using hB)
  have e1 : initFactSt.batch = ([] : List FactRow) := rfl
  have e2 : initFactSt.inserted = ([] : List FactRow) := rfl
  have e3 : initFactSt.total = 0 := rfl
  have e4 : initFactSt.skipped = 0 := rfl
  have e5 : initFactSt.events = ([] : List Ev) := rfl
  simp only [e1, e2, e3, e4, e5, List.nil_append, List.append_nil, List.length_nil,
    Nat.zero_add] at i1 i2 i3 i4 i5
  unfold factPhase factFinish
  by_cases hb : (factLoop B am apm dm fs initFactSt).batch.isEmpty
  · have hbl : (factLoop B am apm dm fs initFactSt).batch = [] := List.isEmpty_iff.mp hb
    have hmod : (fs.filter (admissibleB am apm dm)).length % B = 0 := by
      rw [← i3, hbl]
      rfl
    rw [if_pos hb]
    dsimp only
    refine ⟨?_, ?_, i2, ?_⟩
    · rw [hbl, List.append_nil] at i1
      exact i1
    · rw [i5, hmod]
      have := Nat.mod_le (fs.filter (admissibleB am apm dm)).length B
      omega
    · rw [i4]
      unfold chunkEvents
      rw [hmod]
      simp
  · have hbl : (factLoop B am apm dm fs initFactSt).batch ≠ [] := by
      intro hc
      exact hb (by rw [hc]; rfl)
    have hlen0 : (factLoop B am apm dm fs initFactSt).batch.length ≠ 0 := by
      intro hc
      exact hbl (List.length_eq_zero.mp hc)
    have hmod : (fs.filter (admissibleB am apm dm)).length % B ≠ 0 := by
      rw [← i3]
      exact hlen0
    rw [if_neg hb]
    unfold flushBatch
    dsimp only
    refine ⟨i1, ?_, i2, ?_⟩
    · rw [i5, i3]
      have := Nat.mod_le (fs.filter (admissibleB am apm dm)).length B
      omega
    · rw [i4, i3]
      unfold chunkEvents
      rw [if_neg hmod]

theorem length_filter_add_length_not {α : Type} (l : List α) (p : α → Bool) :
    (l.filter p).length + (l.filter (fun x => !p x)).length = l.length := by
  induction l with
  | nil => rfl
  | cons x l ih =>
    by_cases hx : p x = true
    · rw [List.filter_cons_of_pos hx, List.filter_cons_of_neg (by simp [hx])]
      simp only [List.length_cons]
      omega
    · have hx2 : p x = false := by simpa using hx
      rw [List.filter_cons_of_neg (by simp [hx2]), List.filter_cons_of_pos (by simp [hx2])]
      simp only [List.length_cons]
      omega

/-- Claim C6: for every candidate fact list handed to `load_data`, rows
examined equals rows inserted plus rows skipped — each row feeds exactly
one of the two counters. -/
theorem claim_C6_skip_accounting (w : Warehouse) (dd : List DateRow)
    (da : List (String × String)) (dap : List AirportCand) (facts : List Fact) :
    (loadData w dd da dap facts).2.total + (loadData w dd da dap facts).2.skipped =
      facts.length := by
  have hB : 0 < BATCH_SIZE := by decide
  obtain ⟨-, h2, h3, -⟩ :=
    factPhase_spec BATCH_SIZE hB (airlineMapOf (loadDims w dd da dap))
      (airportMapOf (loadDims w dd da dap)) (dateKeysOf (loadDims w dd da dap)) facts
  have hld : (loadData w dd da dap facts).2 =
      factPhase BATCH_SIZE (airlineMapOf (loadDims w dd da dap))
        (airportMapOf (loadDims w dd da dap)) (dateKeysOf (loadDims w dd da dap)) facts := rfl
  rw [hld, h2, h3]
  exact length_filter_add_length_not facts _

theorem filter_replicate_pos {α : Type} (n : Nat) (x : α) (p : α → Bool) (h : p x = true) :
    (List.replicate n x).filter p = List.replicate n x := by
  induction n with
  | zero => rfl
  | succ n ih => simp [List.replicate_succ, List.filter_cons_of_pos h, ih]

/-- Claim C4 (amended): the fact-insert phase splits the admitted rows into
fixed-size chunks of `BATCH_SIZE`, issuing one bulk insert per full chunk
plus one for the final partial chunk, and a single commit after all chunks
(not one commit per chunk). -/
theorem claim_C4_chunked_insert (am apm : List (String × Nat)) (dm : List Nat)
    (facts : List Fact) :
    (factPhase BATCH_SIZE am apm dm facts).events =
      chunkEvents ((facts.filter (admissibleB am apm dm)).length) BATCH_SIZE := by
  have hB : 0 < BATCH_SIZE := by decide
  exact (factPhase_spec BATCH_SIZE hB am apm dm facts).2.2.2

/-- Counterexample to claim C4 as stated: with 125000 admitted rows the
fact phase emits inserts of 50000, 50000 and 25000 rows and then a single
commit, so not every bulk insert is followed by a commit. -/
theorem claim_C4_counterexample :
    (factPhase BATCH_SIZE [("AA", 1)] [("JFK", 1), ("LAX", 2)] [20230305]
        (List.replicate 125000
          ⟨20230305, "AA", "JFK", "LAX", none, none, none, 0, none, none⟩)).events =
      [Ev.insert 50000, Ev.insert 50000, Ev.insert 25000, Ev.commit] ∧
    eachInsertThenCommit
        [Ev.insert 50000, Ev.insert 50000, Ev.insert 25000, Ev.commit] = false := by
  constructor
  · have hB : 0 < BATCH_SIZE := by decide
    obtain ⟨-, -, -, h4⟩ :=
      factPhase_spec BATCH_SIZE hB [("AA", 1)] [("JFK", 1), ("LAX", 2)] [20230305]
        (List.replicate 125000
          ⟨20230305, "AA", "JFK", "LAX", none, none, none, 0, none, none⟩)
    rw [h4]
    rw [filter_replicate_pos 125000 _ _ (by decide)]
    rw [List.length_replicate]
    decide
  · decide

theorem pyDictGet_mem (l : List (String × Nat)) (k : String) (v : Nat)
    (h : pyDictGet l k = some v) : (k, v) ∈ l := by
  unfold pyDictGet at h
  obtain ⟨p, hp, hv⟩ := Option.map_eq_some'.mp h
  have hmem := List.mem_of_find?_eq_some hp
  have hkey := List.find?_some hp
  have hk : p.1 = k := by simpa using hkey
  rw [List.mem_reverse] at hmem
  have : p = (k, v) := by
    cases p
    simp only at hk hv
    simp [hk, hv]
  rwa [this] at hmem

theorem truthyKey_some (o : Option Nat) (h : truthyKey o = true) : ∃ k, o = some k := by
  cases o with
  | none => exact absurd h (by simp [truthyKey])
  | some k => exact ⟨k, rfl⟩

theorem loadDims_dimDate (w : Warehouse) (dd : List DateRow) (da : List (String × String))
    (dap : List AirportCand) :
    (loadDims w dd da dap).dimDate =
      w.dimDate ++ datesToInsert (w.dimDate.map (fun r => r.1)) dd := rfl

theorem loadDims_dimAirline (w : Warehouse) (dd : List DateRow) (da : List (String × String))
    (dap : List AirportCand) :
    (loadDims w dd da dap).dimAirline =
      w.dimAirline ++
        (airlinesToInsert (w.dimAirline.map (fun r => r.iata)) da).enum.map
          (fun p => ⟨nextKey (w.dimAirline.map (fun r => r.key)) + p.1, p.2.1, p.2.2⟩) := rfl

theorem loadDims_dimAirport (w : Warehouse) (dd : List DateRow) (da : List (String × String))
    (dap : List AirportCand) :
    (loadDims w dd da dap).dimAirport =
      w.dimAirport ++
        (airportsToInsert (w.dimAirport.map (fun r => r.iata)) dap).enum.map
          (fun p => ⟨nextKey (w.dimAirport.map (fun r => r.key)) + p.1, p.2.iata, p.2.name,
            p.2.city, p.2.state⟩) := rfl

theorem loadDims_factFlight (w : Warehouse) (dd : List DateRow) (da : List (String × String))
    (dap : List AirportCand) :
    (loadDims w dd da dap).factFlight = w.factFlight := rfl

theorem nextKey_pos (keys : List Nat) : 0 < nextKey keys := by
  unfold nextKey
  omega

theorem loadDims_keysPos (w : Warehouse) (dd : List DateRow) (da : List (String × String))
    (dap : List AirportCand) (hw : keysPos w) : keysPos (loadDims w dd da dap) := by
  obtain ⟨h1, h2⟩ := hw
  constructor
  · intro r hr
    rw [loadDims_dimAirline] at hr
    rcases List.mem_append.mp hr with h | h
    · exact h1 r h
    · obtain ⟨p, -, rfl⟩ := List.mem_map.mp h
      have := nextKey_pos (w.dimAirline.map (fun r => r.key))
      simp only
      omega
  · intro r hr
    rw [loadDims_dimAirport] at hr
    rcases List.mem_append.mp hr with h | h
    · exact h2 r h
    · obtain ⟨p, -, rfl⟩ := List.mem_map.mp h
      have := nextKey_pos (w.dimAirport.map (fun r => r.key))
      simp only
      omega

theorem airlineMapOf_val_pos (w : Warehouse) (hw : keysPos w) :
    ∀ p ∈ airlineMapOf w, 0 < p.2 := by
  intro p hp
  obtain ⟨r, hr, rfl⟩ := List.mem_map.mp hp
  exact hw.1 r hr

theorem airportMapOf_val_pos (w : Warehouse) (hw : keysPos w) :
    ∀ p ∈ airportMapOf w, 0 < p.2 := by
  intro p hp
  obtain ⟨r, hr, rfl⟩ := List.mem_map.mp hp
  exact hw.2 r hr

theorem truthyKey_iff_isSome (l : List (String × Nat)) (hl : ∀ p ∈ l, 0 < p.2)
    (k : String) : truthyKey (pyDictGet l k) = true ↔ (pyDictGet l k).isSome := by
  cases ho : pyDictGet l k with
  | none => simp [truthyKey]
  | some v =>
    have hmem := pyDictGet_mem l k v ho
    have hv : 0 < v := hl (k, v) hmem
    simp [truthyKey, Option.isSome]
    omega

/-- Claim C2: against the lookup maps and date set read back from the
warehouse after the dimension commit (whose identity keys are positive), a
candidate fact row is admitted to the insert batch exactly when its airline
code, origin code and destination code each resolve and its date key is
present; every non-admitted row is dropped and counted in the skip
counter. -/
theorem claim_C2_admission (w : Warehouse) (dd : List DateRow)
    (da : List (String × String)) (dap : List AirportCand) (facts : List Fact)
    (hw : keysPos w) :
    (∀ f : Fact,
      admissibleB (airlineMapOf (loadDims w dd da dap))
          (airportMapOf (loadDims w dd da dap)) (dateKeysOf (loadDims w dd da dap)) f = true ↔
        ((pyDictGet (airlineMapOf (loadDims w dd da dap)) f.airline).isSome ∧
          (pyDictGet (airportMapOf (loadDims w dd da dap)) f.origin).isSome ∧
          (pyDictGet (airportMapOf (loadDims w dd da dap)) f.dest).isSome ∧
          f.dateKey ∈ dateKeysOf (loadDims w dd da dap))) ∧
    (loadData w dd da dap facts).2.inserted =
      (facts.filter
          (admissibleB (airlineMapOf (loadDims w dd da dap))
            (airportMapOf (loadDims w dd da dap)) (dateKeysOf (loadDims w dd da dap)))).map
        (resolveFact (airlineMapOf (loadDims w dd da dap))
          (airportMapOf (loadDims w dd da dap))) ∧
    (loadData w dd da dap facts).2.skipped =
      (facts.filter (fun f =>
          !admissibleB (airlineMapOf (loadDims w dd da dap))
            (airportMapOf (loadDims w dd da dap)) (dateKeysOf (loadDims w dd da dap)) f)).length := by
  have hw1 : keysPos (loadDims w dd da dap) := loadDims_keysPos w dd da dap hw
  have hB : 0 < BATCH_SIZE := by decide
  obtain ⟨h1, -, h3, -⟩ :=
    factPhase_spec BATCH_SIZE hB (airlineMapOf (loadDims w dd da dap))
      (airportMapOf (loadDims w dd da dap)) (dateKeysOf (loadDims w dd da dap)) facts
  refine ⟨?_, h1, h3⟩
  intro f
  unfold admissibleB
  simp only [Bool.and_eq_true, decide_eq_true_eq]
  rw [truthyKey_iff_isSome _ (airlineMapOf_val_pos _ hw1) f.airline,
    truthyKey_iff_isSome _ (airportMapOf_val_pos _ hw1) f.origin,
    truthyKey_iff_isSome _ (airportMapOf_val_pos _ hw1) f.dest]
  simp [and_assoc]

/-- Witness for C2: a two-row load against an initially empty warehouse,
one row admissible and one not; the skip counter ends at one. -/
theorem claim_C2_admission_witness :
    keysPos ⟨[], [], [], []⟩ ∧
    (loadData ⟨[], [], [], []⟩ [(20230305, 2023, 3, 5)] [("AA", "American")]
        [⟨"JFK", "Kennedy", "NYC", "NY"⟩, ⟨"LAX", "Los Angeles", "LA", "CA"⟩]
        [⟨20230305, "AA", "JFK", "LAX", none, none, none, 0, none, none⟩,
         ⟨20230305, "ZZ", "JFK", "LAX", none, none, none, 0, none, none⟩]).2.skipped = 1 := by
  have hkp : keysPos (⟨[], [], [], []⟩ : Warehouse) := by
    constructor
    · intro r hr
      exact absurd hr (List.not_mem_nil r)
    · intro r hr
      exact absurd hr (List.not_mem_nil r)
  have h := claim_C2_admission ⟨[], [], [], []⟩ [(20230305, 2023, 3, 5)] [("AA", "American")]
    [⟨"JFK", "Kennedy", "NYC", "NY"⟩, ⟨"LAX", "Los Angeles", "LA", "CA"⟩]
    [⟨20230305, "AA", "JFK", "LAX", none, none, none, 0, none, none⟩,
     ⟨20230305, "ZZ", "JFK", "LAX", none, none, none, 0, none, none⟩] hkp
  refine ⟨hkp, ?_⟩
  rw [h.2.2]
  decide

/-- Claim C1: `load_data` preserves referential integrity — every fact row
it persists resolves its three keys through the maps read back from the
warehouse after the dimension inserts commit, so no committed fact row
dangles. -/
theorem claim_C1_fk_safety (w : Warehouse) (dd : List DateRow)
    (da : List (String × String)) (dap : List AirportCand) (facts : List Fact)
    (hw : fkOk w) : fkOk (loadData w dd da dap facts).1 := by
  have hB : 0 < BATCH_SIZE := by decide
  obtain ⟨h1, -, -, -⟩ :=
    factPhase_spec BATCH_SIZE hB (airlineMapOf (loadDims w dd da dap))
      (airportMapOf (loadDims w dd da dap)) (dateKeysOf (loadDims w dd da dap)) facts
  intro f hf
  have hff : (loadData w dd da dap facts).1.factFlight =
      (loadDims w dd da dap).factFlight ++
        (factPhase BATCH_SIZE (airlineMapOf (loadDims w dd da dap))
          (airportMapOf (loadDims w dd da dap)) (dateKeysOf (loadDims w dd da dap))
          facts).inserted := rfl
  have hdd : (loadData w dd da dap facts).1.dimDate = (loadDims w dd da dap).dimDate := rfl
  have hda : (loadData w dd da dap facts).1.dimAirline = (loadDims w dd da dap).dimAirline := rfl
  have hdp : (loadData w dd da dap facts).1.dimAirport = (loadDims w dd da dap).dimAirport := rfl
  have hdkeys : dateKeysOf (loadData w dd da dap facts).1 =
      dateKeysOf (loadDims w dd da dap) := rfl
  rw [hff] at hf
  rw [hdkeys, hda, hdp]
  rcases List.mem_append.mp hf with hold | hnew
  · -- rows already in the warehouse reference the old dimensions
    rw [loadDims_factFlight] at hold
    obtain ⟨k1, k2, k3, k4⟩ := hw f hold
    refine ⟨?_, ?_, ?_, ?_⟩
    · unfold dateKeysOf at k1 ⊢
      rw [loadDims_dimDate, List.map_append]
      exact List.mem_append_left _ k1
    · obtain ⟨r, hr, hrk⟩ := k2
      exact ⟨r, by rw [loadDims_dimAirline]; exact List.mem_append_left _ hr, hrk⟩
    · obtain ⟨r, hr, hrk⟩ := k3
      exact ⟨r, by rw [loadDims_dimAirport]; exact List.mem_append_left _ hr, hrk⟩
    · obtain ⟨r, hr, hrk⟩ := k4
      exact ⟨r, by rw [loadDims_dimAirport]; exact List.mem_append_left _ hr, hrk⟩
  · -- newly inserted rows were admitted, so each key resolved in the maps
    rw [h1] at hnew
    obtain ⟨g, hg, rfl⟩ := List.mem_map.mp hnew
    have hadm := List.of_mem_filter hg
    unfold admissibleB at hadm
    simp only [Bool.and_eq_true, decide_eq_true_eq] at hadm
    obtain ⟨⟨⟨hta, hto⟩, htd⟩, hdk⟩ := hadm
    obtain ⟨ka, hka⟩ := truthyKey_some _ hta
    obtain ⟨ko, hko⟩ := truthyKey_some _ hto
    obtain ⟨kd, hkd⟩ := truthyKey_some _ htd
    refine ⟨hdk, ?_, ?_, ?_⟩
    · have hmem := pyDictGet_mem _ _ _ hka
      obtain ⟨r, hr, hre⟩ := List.mem_map.mp hmem
      refine ⟨r, hr, ?_⟩
      unfold resolveFact
      simp only [hka, Option.getD_some]
      exact (congrArg Prod.snd hre)
    · have hmem := pyDictGet_mem _ _ _ hko
      obtain ⟨r, hr, hre⟩ := List.mem_map.mp hmem
      refine ⟨r, hr, ?_⟩
      unfold resolveFact
      simp only [hko, Option.getD_some]
      exact (congrArg Prod.snd hre)
    · have hmem := pyDictGet_mem _ _ _ hkd
      obtain ⟨r, hr, hre⟩ := List.mem_map.mp hmem
      refine ⟨r, hr, ?_⟩
      unfold resolveFact
      simp only [hkd, Option.getD_some]
      exact (congrArg Prod.snd hre)

/-- Witness for C1: loading into an empty warehouse (trivially
FK-consistent) yields an FK-consistent state. -/
theorem claim_C1_fk_safety_witness :
    fkOk (loadData ⟨[], [], [], []⟩ [(20230305, 2023, 3, 5)] [("AA", "American")]
        [⟨"JFK", "Kennedy", "NYC", "NY"⟩]
        [⟨20230305, "AA", "JFK", "JFK", none, none, none, 0, none, none⟩]).1 := by
  refine claim_C1_fk_safety _ _ _ _ _ ?_
  intro f hf
  exact absurd hf (List.not_mem_nil f)

theorem warehouse_fields_eq (u v : Warehouse) (h1 : u.dimDate = v.dimDate)
    (h2 : u.dimAirline = v.dimAirline) (h3 : u.dimAirport = v.dimAirport)
    (h4 : u.factFlight = v.factFlight) : u = v := by
  cases u
  cases v
  simp only at h1 h2 h3 h4
  rw [h1, h2, h3, h4]

theorem enum_map_build_iata (l : List (String × String)) (start : Nat) :
    ((l.enum.map (fun p => (⟨start + p.1, p.2.1, p.2.2⟩ : AirlineRow))).map
        (fun r => r.iata)) = l.map (fun r => r.1) := by
  rw [List.map_map]
  have h : ((fun r : AirlineRow => r.iata) ∘ fun p : Nat × (String × String) =>
      (⟨start + p.1, p.2.1, p.2.2⟩ : AirlineRow)) = fun p => p.2.1 := rfl
  rw [h]
  have h2 : (fun p : Nat × (String × String) => p.2.1) =
      (fun r : String × String => r.1) ∘ Prod.snd := rfl
  rw [h2, ← List.map_map, List.enum_map_snd]

theorem enum_map_build_iata_airport (l : List AirportCand) (start : Nat) :
    ((l.enum.map (fun p =>
        (⟨start + p.1, p.2.iata, p.2.name, p.2.city, p.2.state⟩ : AirportRow))).map
      (fun r => r.iata)) = l.map (fun r => r.iata) := by
  rw [List.map_map]
  have h : ((fun r : AirportRow => r.iata) ∘ fun p : Nat × AirportCand =>
      (⟨start + p.1, p.2.iata, p.2.name, p.2.city, p.2.state⟩ : AirportRow)) =
      fun p => p.2.iata := rfl
  rw [h]
  have h2 : (fun p : Nat × AirportCand => p.2.iata) =
      (fun r : AirportCand => r.iata) ∘ Prod.snd := rfl
  rw [h2, ← List.map_map, List.enum_map_snd]

/-- Claim C3: a second dimension-load run on identical candidate input,
against the warehouse state left by the first run, computes an empty
to-insert difference for each of the three dimensions and leaves the
warehouse unchanged. -/
theorem claim_C3_idempotent_dims (w : Warehouse) (dd : List DateRow)
    (da : List (String × String)) (dap : List AirportCand) :
    datesToInsert ((loadDims w dd da dap).dimDate.map (fun r => r.1)) dd = [] ∧
    airlinesToInsert ((loadDims w dd da dap).dimAirline.map (fun r => r.iata)) da = [] ∧
    airportsToInsert ((loadDims w dd da dap).dimAirport.map (fun r => r.iata)) dap = [] ∧
    loadDims (loadDims w dd da dap) dd da dap = loadDims w dd da dap := by
  have hdates : datesToInsert ((loadDims w dd da dap).dimDate.map (fun r => r.1)) dd = [] := by
    unfold datesToInsert
    rw [List.filter_eq_nil_iff]
    intro r hr
    simp only [Bool.not_eq_true', decide_eq_false_iff_not, Decidable.not_not]
    rw [loadDims_dimDate, List.map_append]
    by_cases hmem : r.1 ∈ w.dimDate.map (fun r => r.1)
    · exact List.mem_append_left _ hmem
    · refine List.mem_append_right _ ?_
      refine List.mem_map.mpr ⟨r, ?_, rfl⟩
      unfold datesToInsert
      refine List.mem_filter.mpr ⟨hr, ?_⟩
      simp [hmem]
  have hairlines :
      airlinesToInsert ((loadDims w dd da dap).dimAirline.map (fun r => r.iata)) da = [] := by
    unfold airlinesToInsert
    rw [List.filter_eq_nil_iff]
    intro r hr
    simp only [Bool.not_eq_true', decide_eq_false_iff_not, Decidable.not_not]
    rw [loadDims_dimAirline, List.map_append, enum_map_build_iata]
    by_cases hmem : r.1 ∈ w.dimAirline.map (fun r => r.iata)
    · exact List.mem_append_left _ hmem
    · refine List.mem_append_right _ ?_
      refine List.mem_map.mpr ⟨r, ?_, rfl⟩
      unfold airlinesToInsert
      refine List.mem_filter.mpr ⟨hr, ?_⟩
      simp [hmem]
  have hairports :
      airportsToInsert ((loadDims w dd da dap).dimAirport.map (fun r => r.iata)) dap = [] := by
    unfold airportsToInsert
    rw [List.filter_eq_nil_iff]
    intro r hr
    simp only [Bool.not_eq_true', decide_eq_false_iff_not, Decidable.not_not]
    rw [loadDims_dimAirport, List.map_append, enum_map_build_iata_airport]
    by_cases hmem : r.iata ∈ w.dimAirport.map (fun r => r.iata)
    · exact List.mem_append_left _ hmem
    · refine List.mem_append_right _ ?_
      refine List.mem_map.mpr ⟨r, ?_, rfl⟩
      unfold airportsToInsert
      refine List.mem_filter.mpr ⟨hr, ?_⟩
      simp [hmem]
  refine ⟨hdates, hairlines, hairports, ?_⟩
  refine warehouse_fields_eq _ _ ?_ ?_ ?_ ?_
  · rw [loadDims_dimDate, hdates, List.append_nil]
  · rw [loadDims_dimAirline, hairlines]
    simp
  · rw [loadDims_dimAirport, hairports]
    simp
  · exact loadDims_factFlight _ dd da dap

theorem runPeriod_factFlight_ext (wa : Warehouse) (p : PeriodOutcome) :
    ∃ ext, (runPeriod wa p).factFlight = wa.factFlight ++ ext := by
  cases p with
  | connFail => exact ⟨[], by simp [runPeriod]⟩
  | preLoadFail => exact ⟨[], by simp [runPeriod]⟩
  | factPhaseFail dd da dap =>
    exact ⟨[], by simp [runPeriod, loadDims_factFlight]⟩
  | success dd da dap facts =>
    exact ⟨(factPhase BATCH_SIZE (airlineMapOf (loadDims wa dd da dap))
      (airportMapOf (loadDims wa dd da dap)) (dateKeysOf (loadDims wa dd da dap))
      facts).inserted, rfl⟩

theorem etlRun_attempted (ps : List (Nat × PeriodOutcome)) :
    ∀ w : Warehouse, (etlRun w ps).2 = ps.map Prod.fst := by
  induction ps with
  | nil => intro w; rfl
  | cons p ps ih =>
    intro w
    simp [etlRun, ih]

theorem etlRun_factFlight_ext (ps : List (Nat × PeriodOutcome)) :
    ∀ w : Warehouse, ∃ ext, (etlRun w ps).1.factFlight = w.factFlight ++ ext := by
  induction ps with
  | nil => intro w; exact ⟨[], by simp [etlRun]⟩
  | cons p ps ih =>
    intro w
    obtain ⟨e1, h1⟩ := runPeriod_factFlight_ext w p.2
    obtain ⟨e2, h2⟩ := ih (runPeriod w p.2)
    refine ⟨e1 ++ e2, ?_⟩
    show (etlRun (runPeriod w p.2) ps).1.factFlight = _
    rw [h2, h1, List.append_assoc]

/-- Claim C5: the driver attempts every configured period in order
regardless of failures, fact rows committed by earlier periods persist, a
failed period leaves the fact table exactly as it was, and the final report
is the count of fact rows present in the warehouse after all periods. -/
theorem claim_C5_partial_failure (w : Warehouse) (ps : List (Nat × PeriodOutcome)) :
    (etlProcess w ps).2.1 = ps.map Prod.fst ∧
    (∃ ext, (etlProcess w ps).1.factFlight = w.factFlight ++ ext) ∧
    (etlProcess w ps).2.2 = (etlProcess w ps).1.factFlight.length ∧
    (∀ p : PeriodOutcome, isFailOutcome p = true →
      ∀ wa : Warehouse, (runPeriod wa p).factFlight = wa.factFlight) := by
  refine ⟨etlRun_attempted ps w, etlRun_factFlight_ext ps w, rfl, ?_⟩
  intro p hp wa
  cases p with
  | connFail => rfl
  | preLoadFail => rfl
  | factPhaseFail dd da dap => exact loadDims_factFlight wa dd da dap
  | success dd da dap facts => exact absurd hp (by simp [isFailOutcome])

/-- Witness for C5: three periods where the middle one fails — all three
are attempted, the failure leaves the fact table unchanged, and the report
equals the final table size. -/
theorem claim_C5_partial_failure_witness :
    (etlProcess ⟨[], [], [], []⟩
        [(2015, PeriodOutcome.success [(20150101, 2015, 1, 1)] [("AA", "American")]
            [⟨"JFK", "Kennedy", "NYC", "NY"⟩]
            [⟨20150101, "AA", "JFK", "JFK", none, none, none, 0, none, none⟩]),
         (2022, PeriodOutcome.connFail),
         (2023, PeriodOutcome.preLoadFail)]).2.1 = [2015, 2022, 2023] ∧
    isFailOutcome PeriodOutcome.connFail = true ∧
    (runPeriod ⟨[], [], [], []⟩ PeriodOutcome.connFail).factFlight =
      (⟨[], [], [], []⟩ : Warehouse).factFlight := by
  have h := claim_C5_partial_failure ⟨[], [], [], []⟩
    [(2015, PeriodOutcome.success [(20150101, 2015, 1, 1)] [("AA", "American")]
        [⟨"JFK", "Kennedy", "NYC", "NY"⟩]
        [⟨20150101, "AA", "JFK", "JFK", none, none, none, 0, none, none⟩]),
     (2022, PeriodOutcome.connFail),
     (2023, PeriodOutcome.preLoadFail)]
  refine ⟨?_, by decide, h.2.2.2 PeriodOutcome.connFail (by decide) ⟨[], [], [], []⟩⟩
  rw [h.1]
  decide

end FlightETL
